import Mathlib

/-!
Shallow embedding of the secret-factory-contract repository
(`src/factory/src/contract.rs` and its companion message/state modules, plus
the offspring contract in `src/offspring/src`).

Modelling conventions:
* `HumanAddr`/`CanonicalAddr` are modelled as `String`; `canonical_address`
  and `human_address` are the identity (the Api conversion is injective and
  plays no role in the contract logic).
* 32-byte values (`[u8; 32]` passwords, sha-256 outputs, prng seeds, viewing
  key hashes) are modelled as `Nat`-valued opaque tokens.  The hash and prng
  primitives (`sha_256`, `Prng::rand_bytes`, `ViewingKey::new`) are supplied
  by a `Crypto` parameter structure, since their byte-level definition is
  irrelevant to the contract logic.
* The typed keyed store (`save`/`load`/`may_load`/`remove` over prefixed
  storage) is modelled by one `State` record with one field per storage
  namespace.  An absent key is `none`; `HashSet<u32>` is `Finset ℕ`;
  an `AppendStore` is a `List` (attach on a never-created store yields the
  same observable results as the empty list).
* CosmWasm execution is transactional: a handler that returns `Err` leaves
  the persisted state untouched (all-or-nothing per invocation).  Handlers
  are therefore modelled as `Except String (State × ...)`, and the top-level
  `step` keeps the incoming state on an error result.
-/

namespace Factory

/-- Human/canonical address (the Api conversion is modelled as the identity). -/
abbrev Addr := String

/-- Opaque stand-in for a `[u8; 32]` value (passwords, hashes, seeds). -/
abbrev Bytes32 := Nat

/-- `msg.rs::OffspringContractInfo`: code id and code hash of the stored
offspring contract. -/
structure OffspringContractInfo where
  code_id : Nat
  code_hash : String
  deriving DecidableEq, Repr

/-- `state.rs::Config`: the factory configuration singleton. -/
structure Config where
  /-- code hash and address of the offspring contract -/
  version : OffspringContractInfo
  /-- unique id to give created offspring -/
  index : Nat
  /-- factory's create offspring status -/
  stopped : Bool
  /-- address of the factory admin -/
  admin : Addr
  deriving DecidableEq, Repr

/-- `msg.rs::RegisterOffspringInfo` in the variant `contract.rs` belongs to
(mirrored by `offspring/src/factory_msg.rs::FactoryOffspringInfo`): the index
with the factory, the label used when initializing the offspring, and the
offspring password. -/
structure RegisterOffspringInfo where
  index : Nat
  label : String
  password : Bytes32
  deriving DecidableEq, Repr

/-- `msg.rs::StoreOffspringInfo` as used by `contract.rs` (fields read at
`display_active_list` and `try_deactivate_offspring`): offspring address,
label, and password. -/
structure StoreOffspringInfo where
  address : Addr
  label : String
  password : Bytes32
  deriving DecidableEq, Repr

/-- `msg.rs::StoreInactiveOffspringInfo`: the storage format of a deactivated
offspring (same data, separate struct as in the source). -/
structure StoreInactiveOffspringInfo where
  address : Addr
  label : String
  password : Bytes32
  deriving DecidableEq, Repr

/-- `RegisterOffspringInfo::to_store_offspring_info`: pairs the register info
with the caller's (canonical) address. -/
def RegisterOffspringInfo.to_store_offspring_info (r : RegisterOffspringInfo)
    (address : Addr) : StoreOffspringInfo :=
  { address := address, label := r.label, password := r.password }

/-- `StoreOffspringInfo::to_store_inactive_offspring_info`: copies the record
into the inactive storage format. -/
def StoreOffspringInfo.to_store_inactive_offspring_info (r : StoreOffspringInfo) :
    StoreInactiveOffspringInfo :=
  { address := r.address, label := r.label, password := r.password }

/-- `msg.rs::OffspringInfo`: display form of an active offspring
(constructed in `display_active_list`). -/
structure OffspringInfo where
  address : Addr
  password : Bytes32
  deriving DecidableEq, Repr

/-- `msg.rs::InactiveOffspringInfo`: display form of an inactive offspring
(constructed in `try_list_inactive` / `display_addr_inactive`). -/
structure InactiveOffspringInfo where
  index : Option Nat
  address : Addr
  password : Bytes32
  deriving DecidableEq, Repr

/-- `offspring_msg.rs::OffspringInitMsg` (contract.rs variant): the payload of
the creation dispatch sent to the new offspring.  The factory's own
`ContractInfo` is omitted: it is a constant of the environment and is never
read back by the factory. -/
structure OffspringInitMsg where
  index : Nat
  password : Bytes32
  owner : Addr
  count : Int
  description : Option String
  deriving DecidableEq, Repr

/-- The cryptographic primitives used by the factory, kept opaque:
`sha_256`, `Prng::rand_bytes`, the viewing-key hash used by
`ViewingKey::to_hashed`/`check_viewing_key`, and `ViewingKey::new`. -/
structure Crypto where
  /-- `sha_256` on a 32-byte value -/
  sha : Bytes32 → Bytes32
  /-- `Prng::new(seed, entropy).rand_bytes()` -/
  rand : Bytes32 → Bytes32 → Bytes32
  /-- hash of a viewing key string (`ViewingKey::to_hashed`) -/
  vk_hash : String → Bytes32
  /-- `ViewingKey::new(env, seed, entropy)` -/
  vk_new : Bytes32 → String → String
  /-- seed derived at init from the entropy string
  (`sha_256(base64::encode(msg.entropy))`) -/
  init_seed : String → Bytes32

/-- The factory's persisted state: one field per storage namespace of
`state.rs`.  `none` on an `Option` field means the key is absent from the
byte store. -/
structure State where
  /-- `CONFIG_KEY` (always present after init) -/
  config : Config
  /-- `PRNG_SEED_KEY` (always present after init) -/
  prng_seed : Bytes32
  /-- `PENDING_KEY`: password of the offspring just instantiated -/
  pending : Option Bytes32
  /-- `ACTIVE_KEY`: the global active offspring index set -/
  active : Option (Finset Nat)
  /-- `PREFIX_ACTIVE_INFO`: active offspring info keyed by index -/
  active_info : Nat → Option StoreOffspringInfo
  /-- `PREFIX_INACTIVE_INFO`: the global inactive append-store -/
  inactive_log : List StoreInactiveOffspringInfo
  /-- `PREFIX_OWNERS_ACTIVE`: per-owner active index sets -/
  owners_active : Addr → Option (Finset Nat)
  /-- `PREFIX_OWNERS_INACTIVE`: per-owner append-stores of global
  inactive-log positions -/
  owners_inactive : Addr → List Nat
  /-- `PREFIX_VIEW_KEY`: stored viewing-key hashes keyed by address -/
  view_keys : Addr → Option Bytes32

/-- `contract.rs::init`: stores the config, the prng seed, and an empty
active set. -/
def init (c : Crypto) (sender : Addr) (entropy : String)
    (offspring_contract : OffspringContractInfo) : State :=
  { config := { version := offspring_contract, index := 0, stopped := false,
                admin := sender }
    prng_seed := c.init_seed entropy
    pending := none
    active := some ∅
    active_info := fun _ => none
    inactive_log := []
    owners_active := fun _ => none
    owners_inactive := fun _ => []
    view_keys := fun _ => none }

/-- The soft (success-shaped) error responses produced by
`authenticate_offspring`: an `Ok(HandleResponse)` carrying error logs
instead of a hard `Err`. -/
inductive SoftError where
  /-- log `("Unauthorized", "You are not an active offspring this factory created")` -/
  | unauthorized
  /-- logs `("Error", "Unable to register action with the factory contract")`,
  `("Reason", "Missing offspring information")` -/
  | missing_offspring_info
  /-- logs `("Error", "Unable to register action with the factory contract")`,
  `("Reason", "Missing active offspring list")` -/
  | missing_active_list
  deriving DecidableEq, Repr

/-- The log lines attached to each soft error response in
`try_deactivate_offspring`/`authenticate_offspring`. -/
def SoftError.log_lines : SoftError → List (String × String)
  | .unauthorized =>
      [("Unauthorized", "You are not an active offspring this factory created")]
  | .missing_offspring_info =>
      [("Error", "Unable to register action with the factory contract"),
       ("Reason", "Missing offspring information")]
  | .missing_active_list =>
      [("Error", "Unable to register action with the factory contract"),
       ("Reason", "Missing active offspring list")]

/-- Observable output of a successful handler invocation (the
`HandleResponse` data relevant to the spec). -/
inductive HandleOut where
  /-- `try_create_offspring`: the creation dispatch (label + init msg) -/
  | created (label : String) (initmsg : OffspringInitMsg)
  /-- `try_register_offspring`: log `("offspring_address", sender)` -/
  | registered (offspring_address : Addr)
  /-- `try_deactivate_offspring`, success path -/
  | deactivated
  /-- `try_deactivate_offspring`, soft error path: `Ok` response with error
  logs and no state mutation -/
  | deactivate_soft_error (e : SoftError)
  /-- `HandleAnswer::Status { status: Success }` -/
  | status_ok
  /-- `HandleAnswer::ViewingKey { key }` -/
  | viewing_key (key : String)
  deriving DecidableEq, Repr

/-- `contract.rs::try_create_offspring`.  `entropy_mix` stands for the byte
string assembled by `new_entropy` (block height ‖ block time ‖ sender ‖
user entropy); its byte-level layout never influences the contract logic. -/
def try_create_offspring (c : Crypto) (s : State) (label : String)
    (entropy_mix : Bytes32) (owner : Addr) (count : Int)
    (description : Option String) : Except String (State × HandleOut) :=
  if s.config.stopped then
    .error "The factory has been stopped. No new offspring can be created"
  else
    -- generate and save new prng seed, and password
    let new_prng_bytes := c.rand s.prng_seed entropy_mix
    let password := c.sha new_prng_bytes
    let initmsg : OffspringInitMsg :=
      { index := s.config.index, password := password, owner := owner,
        count := count, description := description }
    -- increment the index for the next offspring
    .ok ({ s with prng_seed := new_prng_bytes
                  pending := some password
                  config := { s.config with index := s.config.index + 1 } },
         .created label initmsg)

/-- `contract.rs::try_register_offspring`. -/
def try_register_offspring (s : State) (sender : Addr) (owner : Addr)
    (reg_offspring : RegisterOffspringInfo) : Except String (State × HandleOut) :=
  -- verify this is the offspring we are waiting for
  match s.pending with
  | none => .error "Unable to authenticate registration."
  | some auth_password =>
    if auth_password ≠ reg_offspring.password then
      .error "password does not match the offspring we are creating"
    else
      let s := { s with pending := none }
      -- save the offspring info keyed by its index
      let offspring := reg_offspring.to_store_offspring_info sender
      let s := { s with active_info :=
        fun j => if j = reg_offspring.index then some offspring else s.active_info j }
      -- add the offspring to the list of active offspring (`load`: hard error if absent)
      match s.active with
      | none => .error "not found: HashSet<u32>"
      | some active =>
        let s := { s with active := some (insert reg_offspring.index active) }
        -- add this offspring to the owner's list
        let my_active := (s.owners_active owner).getD ∅
        let s := { s with owners_active :=
          fun a => if a = owner then some (insert reg_offspring.index my_active)
                   else s.owners_active a }
        .ok (s, .registered sender)

/-- `contract.rs::authenticate_offspring`: verifies that the offspring is in
the active list; returns the (optional) active set, the (optional) offspring
info, and the (optional) soft error response. -/
def authenticate_offspring (s : State) (offspring : Addr) (index : Nat) :
    Option (Finset Nat) × Option StoreOffspringInfo × Option SoftError :=
  match s.active with
  | none => (none, none, some .missing_active_list)
  | some active_set =>
    match s.active_info index with
    | none => (some active_set, none, some .missing_offspring_info)
    | some offspring_info =>
      if offspring_info.address ≠ offspring ∨ index ∉ active_set then
        (some active_set, some offspring_info, some .unauthorized)
      else
        (some active_set, some offspring_info, none)

/-- `contract.rs::remove_from_persons_active`: removes `index` from the
person's active list if that list exists (no-op otherwise). -/
def remove_from_persons_active (s : State) (person : Addr) (index : Nat) : State :=
  match s.owners_active person with
  | none => s
  | some active =>
    { s with owners_active :=
        fun a => if a = person then some (active.erase index) else s.owners_active a }

/-- `contract.rs::try_deactivate_offspring`. -/
def try_deactivate_offspring (s : State) (sender : Addr) (index : Nat)
    (owner : Addr) : Except String (State × HandleOut) :=
  -- verify offspring is in active list, and not a spam attempt
  match authenticate_offspring s sender index with
  | (_, _, some e) => .ok (s, .deactivate_soft_error e)
  | (may_active, may_info, none) =>
    -- `may_active.unwrap()` / `may_info.unwrap()`: authenticate_offspring
    -- only returns `none` for the error when both are present
    match may_active, may_info with
    | some active, some offspring_info =>
      -- delete the active offspring info, remove from the active list
      let s := { s with
        active_info := fun j => if j = index then none else s.active_info j
        active := some (active.erase index) }
      -- append to the global inactive log
      let inactive_info := offspring_info.to_store_inactive_offspring_info
      let inactive_index := s.inactive_log.length
      let s := { s with inactive_log := s.inactive_log ++ [inactive_info] }
      -- remove offspring from owner's active list
      let s := remove_from_persons_active s owner index
      -- add to owner's inactive list
      let s := { s with owners_inactive :=
        fun a => if a = owner then s.owners_inactive a ++ [inactive_index]
                 else s.owners_inactive a }
      .ok (s, .deactivated)
    | _, _ => .error "unreachable: authenticate_offspring returned no error"

/-- `contract.rs::try_new_contract` (admin-gated offspring version change). -/
def try_new_contract (s : State) (sender : Addr)
    (offspring_contract : OffspringContractInfo) : Except String (State × HandleOut) :=
  if s.config.admin ≠ sender then
    .error "This is an admin command. Admin commands can only be run from admin address"
  else
    .ok ({ s with config := { s.config with version := offspring_contract } },
         .status_ok)

/-- `contract.rs::try_set_status` (admin-gated pause switch). -/
def try_set_status (s : State) (sender : Addr) (stop : Bool) :
    Except String (State × HandleOut) :=
  if s.config.admin ≠ sender then
    .error "This is an admin command. Admin commands can only be run from admin address"
  else
    .ok ({ s with config := { s.config with stopped := stop } }, .status_ok)

/-- `contract.rs::try_create_key`: derives a fresh viewing key from the
persistent prng seed and stores its hash. -/
def try_create_key (c : Crypto) (s : State) (sender : Addr) (entropy : String) :
    Except String (State × HandleOut) :=
  let key := c.vk_new s.prng_seed entropy
  .ok ({ s with view_keys :=
           fun a => if a = sender then some (c.vk_hash key) else s.view_keys a },
       .viewing_key key)

/-- `contract.rs::try_set_key`: stores the hash of the caller-supplied key. -/
def try_set_key (c : Crypto) (s : State) (sender : Addr) (key : String) :
    Except String (State × HandleOut) :=
  .ok ({ s with view_keys :=
           fun a => if a = sender then some (c.vk_hash key) else s.view_keys a },
       .viewing_key key)

/-! ### Queries (read-only: they take the state by reference) -/

/-- `ViewingKey::check_viewing_key`: compares the hash of the input key
against an expected 32-byte hash value. -/
def check_viewing_key (c : Crypto) (input_key : String) (expected : Bytes32) : Bool :=
  c.vk_hash input_key = expected

/-- The fixed all-zero dummy value `[0u8; VIEWING_KEY_SIZE]` that
`is_key_valid` compares against when no key is stored. -/
def zero_key : Bytes32 := 0

/-- `contract.rs::is_key_valid`: validates an address/viewing-key pair.
When no key is stored the implementation still runs `check_viewing_key`
against the all-zero dummy value instead of returning early. -/
def is_key_valid (c : Crypto) (s : State) (address : Addr)
    (viewing_key : String) : Bool :=
  match s.view_keys address with
  | some expected_key =>
    -- a key was set: one hash-and-compare against the stored hash
    if check_viewing_key c viewing_key expected_key then true else false
  | none =>
    -- Checking the key will take significant time. We don't want to exit
    -- immediately if it isn't set in a way which will allow to time the
    -- command and determine if a viewing key doesn't exist
    let _ := check_viewing_key c viewing_key zero_key
    false

/-- Cost instrumentation for `is_key_valid`: the number of
`check_viewing_key` (hash-and-compare) executions each path performs.  This
is the timing-relevant observable of the anti-timing-oracle measure. -/
def is_key_valid_checks (c : Crypto) (s : State) (address : Addr)
    (viewing_key : String) : Nat :=
  match s.view_keys address with
  | some expected_key =>
    -- the stored-key path always performs exactly one check
    if check_viewing_key c viewing_key expected_key then 1 else 1
  | none =>
    -- the no-key path performs the one dummy check before returning false
    let _ := check_viewing_key c viewing_key zero_key
    1

/-- `msg.rs::FilterTypes`. -/
inductive FilterTypes where
  | active
  | inactive
  | all
  deriving DecidableEq, Repr

/-- `msg.rs::QueryAnswer` (the variants used by the embedded queries). -/
inductive QueryAnswer where
  | list_my_offspring (active : Option (List OffspringInfo))
      (inactive : Option (List InactiveOffspringInfo))
  | list_active_offspring (active : Option (List OffspringInfo))
  | list_inactive_offspring (inactive : Option (List InactiveOffspringInfo))
  | viewing_key_error (error : String)
  | is_key_valid_answer (is_valid : Bool)
  deriving DecidableEq, Repr

/-- `contract.rs::display_active_list` specialised to an index set already
loaded from storage: turns the set of active indices into displayable
offspring infos, skipping indices with no stored info.  `HashSet` iteration
order is unspecified in the source; the model fixes ascending index order. -/
def display_active_set (s : State) (list : Finset Nat) : Option (List OffspringInfo) :=
  let actives := (list.sort (· ≤ ·)).filterMap fun index =>
    (s.active_info index).map fun info =>
      { address := info.address, password := info.password }
  if actives.isEmpty then none else some actives

/-- `contract.rs::display_active_list`: reads either an owner's active set
(`prefix = some owner`) or the factory's global active set (`prefix = none`),
then displays it.  A missing list displays as the empty list. -/
def display_active_list (s : State) (owner_key : Option Addr) :
    Option (List OffspringInfo) :=
  let load_list : Option (Finset Nat) :=
    match owner_key with
    | some owner => s.owners_active owner
    | none => s.active
  display_active_set s (load_list.getD ∅)

/-- `contract.rs::display_addr_inactive`: walks an owner's inactive list
backwards, resolving each global-log position; positions out of range are
skipped (`get_at` returns `Err`). -/
def display_addr_inactive (s : State) (owner : Addr) :
    Option (List InactiveOffspringInfo) :=
  let inactive_vec := (s.owners_inactive owner).reverse.filterMap fun index =>
    (s.inactive_log.get? index).map fun info =>
      { index := none, address := info.address, password := info.password }
  if inactive_vec.isEmpty then none else some inactive_vec

/-- `contract.rs::try_list_my`: authenticated listing of the address'
offspring, or a `ViewingKeyError` answer on authentication failure. -/
def try_list_my (c : Crypto) (s : State) (address : Addr) (viewing_key : String)
    (filter : Option FilterTypes) : QueryAnswer :=
  if is_key_valid c s address viewing_key then
    -- if no filter default to ALL
    let types := filter.getD .all
    let active_list :=
      if types = FilterTypes.active ∨ types = FilterTypes.all then
        display_active_list s (some address)
      else none
    let inactive_list :=
      if types = FilterTypes.inactive ∨ types = FilterTypes.all then
        display_addr_inactive s address
      else none
    .list_my_offspring active_list inactive_list
  else
    .viewing_key_error "Wrong viewing key for this address or viewing key not set"

/-- `contract.rs::try_list_active`. -/
def try_list_active (s : State) : QueryAnswer :=
  .list_active_offspring (display_active_list s none)

/-- `contract.rs::try_validate_key`. -/
def try_validate_key (c : Crypto) (s : State) (address : Addr)
    (viewing_key : String) : QueryAnswer :=
  .is_key_valid_answer (is_key_valid c s address viewing_key)

/-- `contract.rs::try_list_inactive`: paginated reverse-chronological listing
of the global inactive log.  `before` is an exclusive upper bound defaulting
to the log length (clamped to it), `page_size` defaults to 200. -/
def try_list_inactive (s : State) (before : Option Nat) (page_size : Option Nat) :
    QueryAnswer :=
  let len := s.inactive_log.length
  -- start iterating from the last close or before given index
  let pos := min (before.getD len) len
  let skip := len - pos
  let quant := page_size.getD 200
  -- grab backwards from the starting point
  let inactive_vec :=
    ((s.inactive_log.enum.reverse.drop skip).take quant).map fun p =>
      { index := some p.1, address := p.2.address, password := p.2.password :
        InactiveOffspringInfo }
  .list_inactive_offspring (if inactive_vec.isEmpty then none else some inactive_vec)

/-! ### Message dispatch and traces -/

/-- `msg.rs::HandleMsg`, with the caller (`env.message.sender`) attached to
each message; `entropy_mix` on `CreateOffspring` stands for the block/sender
entropy bytes assembled by `new_entropy`. -/
inductive HandleMsg where
  | create_offspring (sender : Addr) (label : String) (entropy_mix : Bytes32)
      (owner : Addr) (count : Int) (description : Option String)
  | register_offspring (sender : Addr) (owner : Addr)
      (offspring : RegisterOffspringInfo)
  | deactivate_offspring (sender : Addr) (index : Nat) (owner : Addr)
  | create_viewing_key (sender : Addr) (entropy : String)
  | set_viewing_key (sender : Addr) (key : String)
  | new_offspring_contract (sender : Addr)
      (offspring_contract : OffspringContractInfo)
  | set_status (sender : Addr) (stop : Bool)
  deriving DecidableEq, Repr

/-- `contract.rs::handle`: dispatches a message to its handler. -/
def handle (c : Crypto) (s : State) : HandleMsg → Except String (State × HandleOut)
  | .create_offspring sender label entropy_mix owner count description =>
    -- sender only feeds `new_entropy`, which `entropy_mix` already stands for
    let _ := sender
    try_create_offspring c s label entropy_mix owner count description
  | .register_offspring sender owner offspring =>
    try_register_offspring s sender owner offspring
  | .deactivate_offspring sender index owner =>
    try_deactivate_offspring s sender index owner
  | .create_viewing_key sender entropy => try_create_key c s sender entropy
  | .set_viewing_key sender key => try_set_key c s sender key
  | .new_offspring_contract sender offspring_contract =>
    try_new_contract s sender offspring_contract
  | .set_status sender stop => try_set_status s sender stop

/-- One host-level invocation: the store mutation is all-or-nothing per
invocation, so an `Err` result leaves the persisted state untouched. -/
def step (c : Crypto) (s : State) (msg : HandleMsg) : State :=
  match handle c s msg with
  | .ok (s', _) => s'
  | .error _ => s

/-- Execution of a sequence of invocations from a state. -/
def exec (c : Crypto) (s : State) (msgs : List HandleMsg) : State :=
  msgs.foldl (step c) s

/-! ### Registration/deactivation history of a trace

The spec's Membership-Index invariant speaks about "each registered
offspring record".  To state it we record, alongside execution, the
successful registrations (index, owner, stored record) and successful
deactivations (index, owner) that occurred. -/

/-- A successful registration: the index under which the record was stored,
the owner named in the `RegisterOffspring` message, and the stored record. -/
structure RegEvent where
  index : Nat
  owner : Addr
  record : StoreOffspringInfo
  deriving DecidableEq, Repr

/-- History events: successful registrations and deactivations. -/
inductive Ev where
  | reg (e : RegEvent)
  | deact (index : Nat) (owner : Addr)
  deriving DecidableEq, Repr

/-- The events produced by one invocation (empty unless a registration or a
deactivation succeeds). -/
def events (c : Crypto) (s : State) (msg : HandleMsg) : List Ev :=
  match msg, handle c s msg with
  | .register_offspring sender owner reg, .ok (_, .registered _) =>
    [.reg ⟨reg.index, owner, reg.to_store_offspring_info sender⟩]
  | .deactivate_offspring _ index owner, .ok (_, .deactivated) =>
    [.deact index owner]
  | _, _ => []

/-- Execution that also collects the history of events. -/
def execH (c : Crypto) : State × List Ev → List HandleMsg → State × List Ev
  | p, [] => p
  | (s, h), m :: ms => execH c (step c s m, h ++ events c s m) ms

/-- The registration events of a history. -/
def hRegs (h : List Ev) : List RegEvent :=
  h.filterMap fun e => match e with | .reg r => some r | _ => none

/-- The deactivated indices of a history. -/
def hDeacts (h : List Ev) : List Nat :=
  h.filterMap fun e => match e with | .deact i _ => some i | _ => none

/-- Per-invocation admissibility condition for the amended Membership-Index
invariant: a registration that would succeed must use an index never
registered before and a password distinct from every previously registered
password, and a deactivation that would succeed must name the owner under
which its index was registered. -/
def cond (s : State) (h : List Ev) : HandleMsg → Prop
  | .register_offspring _ _ reg =>
    s.pending = some reg.password →
      ∀ e ∈ hRegs h, e.index ≠ reg.index ∧ e.record.password ≠ reg.password
  | .deactivate_offspring sender index owner =>
    (authenticate_offspring s sender index).2.2 = none →
      ∀ e ∈ hRegs h, e.index = index → e.owner = owner
  | _ => True

/-- Admissibility of a whole trace from a given state and history. -/
def Adm (c : Crypto) : State → List Ev → List HandleMsg → Prop
  | _, _, [] => True
  | s, h, m :: ms => cond s h m ∧ Adm c (step c s m) (h ++ events c s m) ms

instance instDecidableCond (s : State) (h : List Ev)
    (m : HandleMsg) : Decidable (cond s h m) := by
  unfold cond; cases m <;> infer_instance

instance instDecidableAdm (c : Crypto) :
    ∀ (s : State) (h : List Ev) (msgs : List HandleMsg), Decidable (Adm c s h msgs)
  | _, _, [] => .isTrue trivial
  | s, h, m :: ms => by
    unfold Adm
    have := instDecidableAdm c (step c s m) (h ++ events c s m) ms
    infer_instance

/-! ### Membership of a record in the four index structures -/

/-- The record appears in the Global Active Index: some index of the global
active set stores it in the active-info store. -/
def in_global_active (s : State) (r : StoreOffspringInfo) : Prop :=
  ∃ i ∈ s.active.getD ∅, s.active_info i = some r

/-- The record appears in the Global Inactive Index (the append-log). -/
def in_global_inactive (s : State) (r : StoreOffspringInfo) : Prop :=
  r.to_store_inactive_offspring_info ∈ s.inactive_log

/-- The record appears in the given owner's Active index. -/
def in_owner_active (s : State) (owner : Addr) (r : StoreOffspringInfo) : Prop :=
  ∃ i ∈ (s.owners_active owner).getD ∅, s.active_info i = some r

/-- The record appears in the given owner's Inactive index: some position of
the owner's inactive list resolves to it in the global log. -/
def in_owner_inactive (s : State) (owner : Addr) (r : StoreOffspringInfo) : Prop :=
  ∃ p ∈ s.owners_inactive owner,
    s.inactive_log.get? p = some r.to_store_inactive_offspring_info

instance instDecidableInGA (s : State) (r : StoreOffspringInfo) :
    Decidable (in_global_active s r) := by unfold in_global_active; infer_instance

instance instDecidableInGI (s : State) (r : StoreOffspringInfo) :
    Decidable (in_global_inactive s r) := by unfold in_global_inactive; infer_instance

instance instDecidableInOA (s : State) (owner : Addr) (r : StoreOffspringInfo) :
    Decidable (in_owner_active s owner r) := by unfold in_owner_active; infer_instance

instance instDecidableInOI (s : State) (owner : Addr) (r : StoreOffspringInfo) :
    Decidable (in_owner_inactive s owner r) := by unfold in_owner_inactive; infer_instance

/-- Exactly one of two propositions holds. -/
def ExactlyOne (P Q : Prop) : Prop := (P ∧ ¬Q) ∨ (Q ∧ ¬P)

instance instDecidableExactlyOne (P Q : Prop) [Decidable P] [Decidable Q] :
    Decidable (ExactlyOne P Q) := by unfold ExactlyOne; infer_instance

/-- Whether a message is a `RegisterOffspring` call. -/
def HandleMsg.is_register : HandleMsg → Bool
  | .register_offspring .. => true
  | _ => false

/-! ### Characterization lemmas for the handlers -/

/-- The state produced by a successful registration. -/
def post_register (s : State) (sender owner : Addr) (reg : RegisterOffspringInfo)
    (aset : Finset Nat) : State :=
  { s with pending := none
           active_info := fun j =>
             if j = reg.index then some (reg.to_store_offspring_info sender)
             else s.active_info j
           active := some (insert reg.index aset)
           owners_active := fun a =>
             if a = owner then
               some (insert reg.index ((s.owners_active owner).getD ∅))
             else s.owners_active a }

lemma try_register_offspring_ok (s : State) (sender owner : Addr)
    (reg : RegisterOffspringInfo) (aset : Finset Nat)
    (hp : s.pending = some reg.password) (ha : s.active = some aset) :
    try_register_offspring s sender owner reg =
      .ok (post_register s sender owner reg aset, .registered sender) := by
  simp [try_register_offspring, post_register, hp, ha]

lemma try_register_offspring_no_ticket (s : State) (sender owner : Addr)
    (reg : RegisterOffspringInfo) (hp : s.pending = none) :
    try_register_offspring s sender owner reg =
      .error "Unable to authenticate registration." := by
  simp [try_register_offspring, hp]

lemma try_register_offspring_mismatch (s : State) (sender owner : Addr)
    (reg : RegisterOffspringInfo) (p : Bytes32)
    (hp : s.pending = some p) (hne : reg.password ≠ p) :
    try_register_offspring s sender owner reg =
      .error "password does not match the offspring we are creating" := by
  simp only [try_register_offspring, hp]
  rw [if_pos (Ne.symm hne)]

/-- The state produced by a successful deactivation. -/
def post_deactivate (s : State) (index : Nat) (owner : Addr)
    (aset : Finset Nat) (info : StoreOffspringInfo) : State :=
  let s1 : State :=
    { s with active_info := fun j => if j = index then none else s.active_info j
             active := some (aset.erase index) }
  let s2 : State := { s1 with inactive_log :=
    s1.inactive_log ++ [info.to_store_inactive_offspring_info] }
  let s3 : State := remove_from_persons_active s2 owner index
  { s3 with owners_inactive := fun a =>
      if a = owner then s3.owners_inactive a ++ [s.inactive_log.length]
      else s3.owners_inactive a }

lemma try_deactivate_offspring_ok (s : State) (sender : Addr) (index : Nat)
    (owner : Addr) (aset : Finset Nat) (info : StoreOffspringInfo)
    (ha : s.active = some aset) (hinfo : s.active_info index = some info)
    (haddr : info.address = sender) (hmem : index ∈ aset) :
    try_deactivate_offspring s sender index owner =
      .ok (post_deactivate s index owner aset info, .deactivated) := by
  have hauth : authenticate_offspring s sender index = (some aset, some info, none) := by
    simp [authenticate_offspring, ha, hinfo, haddr, hmem]
  unfold try_deactivate_offspring
  rw [hauth]
  rfl

lemma try_deactivate_offspring_soft (s : State) (sender : Addr) (index : Nat)
    (owner : Addr) (e : SoftError)
    (hauth : (authenticate_offspring s sender index).2.2 = some e) :
    try_deactivate_offspring s sender index owner =
      .ok (s, .deactivate_soft_error e) := by
  unfold try_deactivate_offspring
  rcases hx : authenticate_offspring s sender index with ⟨ma, mi, me⟩
  rw [hx] at hauth
  simp only at hauth
  subst hauth
  rfl

/-- When `authenticate_offspring` reports no error, the active set exists,
the record exists, its address is the caller, and its index is active. -/
lemma authenticate_offspring_none (s : State) (sender : Addr) (index : Nat)
    (h : (authenticate_offspring s sender index).2.2 = none) :
    ∃ aset info, s.active = some aset ∧ s.active_info index = some info ∧
      info.address = sender ∧ index ∈ aset ∧
      authenticate_offspring s sender index = (some aset, some info, none) := by
  unfold authenticate_offspring at h
  cases h1 : s.active with
  | none => simp only [h1] at h; simp at h
  | some aset =>
    simp only [h1] at h
    cases h2 : s.active_info index with
    | none => simp only [h2] at h; simp at h
    | some info =>
      simp only [h2] at h
      by_cases h3 : info.address ≠ sender ∨ index ∉ aset
      · rw [if_pos h3] at h; simp at h
      · refine ⟨aset, info, rfl, rfl, ?_, ?_, ?_⟩
        · push_neg at h3; exact h3.1
        · push_neg at h3; exact h3.2
        · unfold authenticate_offspring
          simp only [h1, h2]
          rw [if_neg h3]

lemma remove_from_persons_active_owners (s : State) (person : Addr) (index : Nat)
    (a : Addr) :
    (remove_from_persons_active s person index).owners_active a =
      if a = person then (s.owners_active person).map (fun set => set.erase index)
      else s.owners_active a := by
  unfold remove_from_persons_active
  cases h : s.owners_active person with
  | none => by_cases ha : a = person <;> simp [ha, h]
  | some set => by_cases ha : a = person <;> simp [ha, h]

lemma remove_from_persons_active_config (s : State) (person : Addr) (index : Nat) :
    (remove_from_persons_active s person index).config = s.config := by
  unfold remove_from_persons_active; cases s.owners_active person <;> rfl

lemma remove_from_persons_active_pending (s : State) (person : Addr) (index : Nat) :
    (remove_from_persons_active s person index).pending = s.pending := by
  unfold remove_from_persons_active; cases s.owners_active person <;> rfl

lemma remove_from_persons_active_active (s : State) (person : Addr) (index : Nat) :
    (remove_from_persons_active s person index).active = s.active := by
  unfold remove_from_persons_active; cases s.owners_active person <;> rfl

lemma remove_from_persons_active_info (s : State) (person : Addr) (index : Nat) :
    (remove_from_persons_active s person index).active_info = s.active_info := by
  unfold remove_from_persons_active; cases s.owners_active person <;> rfl

lemma remove_from_persons_active_log (s : State) (person : Addr) (index : Nat) :
    (remove_from_persons_active s person index).inactive_log = s.inactive_log := by
  unfold remove_from_persons_active; cases s.owners_active person <;> rfl

lemma remove_from_persons_active_owners_inactive (s : State) (person : Addr)
    (index : Nat) :
    (remove_from_persons_active s person index).owners_inactive = s.owners_inactive := by
  unfold remove_from_persons_active; cases s.owners_active person <;> rfl

lemma remove_from_persons_active_view_keys (s : State) (person : Addr)
    (index : Nat) :
    (remove_from_persons_active s person index).view_keys = s.view_keys := by
  unfold remove_from_persons_active; cases s.owners_active person <;> rfl

lemma remove_from_persons_active_prng (s : State) (person : Addr) (index : Nat) :
    (remove_from_persons_active s person index).prng_seed = s.prng_seed := by
  unfold remove_from_persons_active; cases s.owners_active person <;> rfl

lemma step_eq_of_ok {c : Crypto} {s s' : State} {m : HandleMsg} {o : HandleOut}
    (h : handle c s m = .ok (s', o)) : step c s m = s' := by
  simp [step, h]

lemma step_eq_of_error {c : Crypto} {s : State} {m : HandleMsg} {msg : String}
    (h : handle c s m = .error msg) : step c s m = s := by
  simp [step, h]

/-- Dropping from a reversed enumeration is taking a reversed prefix. -/
lemma enum_reverse_drop (log : List StoreInactiveOffspringInfo) (pos : Nat) :
    log.enum.reverse.drop (log.length - pos) = (log.enum.take pos).reverse := by
  have h : log.length = log.enum.length := List.enum_length.symm
  rw [h, ← List.reverse_take]

/-! ### Claim theorems -/

/-- C2: a `RegisterOffspring` call whose supplied password does not equal the
currently pending ticket (including the case where no ticket is pending)
returns a hard error, and the invocation leaves the state — the pending
ticket, the global active set, the active-info store, and every owner's
active/inactive index — unchanged (store mutation is all-or-nothing per
invocation, and the handler rejects before mutating). -/
theorem register_bad_password_rejected_without_mutation
    (s : State) (sender owner : Addr) (reg : RegisterOffspringInfo)
    (hbad : ∀ p, s.pending = some p → reg.password ≠ p) :
    (∃ msg, try_register_offspring s sender owner reg = .error msg) ∧
    ∀ c : Crypto, step c s (.register_offspring sender owner reg) = s := by
  cases hpend : s.pending with
  | none =>
    have herr := try_register_offspring_no_ticket s sender owner reg hpend
    exact ⟨⟨_, herr⟩, fun c => step_eq_of_error (by simpa [handle] using herr)⟩
  | some p =>
    have herr := try_register_offspring_mismatch s sender owner reg p hpend
      (hbad p hpend)
    exact ⟨⟨_, herr⟩, fun c => step_eq_of_error (by simpa [handle] using herr)⟩

/-- C5: `is_key_valid` (used by `IsKeyValid` and `ListMyOffspring`) returns
`false` both when no key is stored for the address and when the stored key
hash does not match the candidate's hash, and in both cases it executes
exactly one hash-and-compare (`check_viewing_key`) — on the no-key path
against the fixed all-zero dummy value — rather than returning early on a
presence check. -/
theorem viewing_key_false_and_uniform_compare_cost :
    (∀ (c : Crypto) (s : State) (a : Addr) (k : String),
      s.view_keys a = none →
        is_key_valid c s a k = false ∧ is_key_valid_checks c s a k = 1) ∧
    (∀ (c : Crypto) (s : State) (a : Addr) (k : String) (e : Bytes32),
      s.view_keys a = some e → c.vk_hash k ≠ e →
        is_key_valid c s a k = false ∧ is_key_valid_checks c s a k = 1) := by
  constructor
  · intro c s a k h
    simp [is_key_valid, is_key_valid_checks, h]
  · intro c s a k e h hne
    simp [is_key_valid, is_key_valid_checks, check_viewing_key, h, hne]

/-- C8: a `RegisterOffspring` call carrying the pending password stores the
new record keyed by the index supplied in the message — the handler imposes
no relation between that index and the factory's issued `config.index` (the
index is universally quantified and unconstrained here) — and when that index
already keys an existing active record, the stored info is silently replaced
by the new record and the index is (re-)inserted into the global and owner
active sets. -/
theorem register_supplied_index_overwrites
    (s : State) (sender owner : Addr) (reg : RegisterOffspringInfo)
    (aset : Finset Nat) (old : StoreOffspringInfo)
    (hp : s.pending = some reg.password) (ha : s.active = some aset)
    (hold : s.active_info reg.index = some old) :
    ∃ s', try_register_offspring s sender owner reg = .ok (s', .registered sender) ∧
      s'.active_info reg.index = some (reg.to_store_offspring_info sender) ∧
      reg.index ∈ s'.active.getD ∅ ∧
      reg.index ∈ (s'.owners_active owner).getD ∅ := by
  refine ⟨_, try_register_offspring_ok s sender owner reg aset hp ha, ?_, ?_, ?_⟩
  · simp [post_register]
  · simp [post_register]
  · simp [post_register]

/-- C9: the owner under which a successfully registering offspring is indexed
is the owner named in the `RegisterOffspring` message itself; the handler
never compares it with the owner that was supplied in the originating
`CreateOffspring` (which only flows into the dispatched init message).  A
caller presenting the pending password can thus register the record under a
different owner: after `CreateOffspring` for `ownerA`, registration naming
`ownerB` succeeds and inserts the index into `ownerB`'s active set but not
into `ownerA`'s. -/
theorem register_owner_from_message_not_from_create
    (c : Crypto) (s : State) (label lbl : String) (entropy_mix : Bytes32)
    (ownerA ownerB sender : Addr) (count : Int) (description : Option String)
    (i : Nat) (aset : Finset Nat)
    (hstop : s.config.stopped = false) (ha : s.active = some aset)
    (hAB : ownerA ≠ ownerB) (hnot : i ∉ (s.owners_active ownerA).getD ∅) :
    ∃ s1 initmsg s2,
      try_create_offspring c s label entropy_mix ownerA count description =
        .ok (s1, .created label initmsg) ∧
      initmsg.owner = ownerA ∧
      try_register_offspring s1 sender ownerB ⟨i, lbl, initmsg.password⟩ =
        .ok (s2, .registered sender) ∧
      i ∈ (s2.owners_active ownerB).getD ∅ ∧
      i ∉ (s2.owners_active ownerA).getD ∅ := by
  have hcreate : try_create_offspring c s label entropy_mix ownerA count description =
      .ok ({ s with prng_seed := c.rand s.prng_seed entropy_mix
                    pending := some (c.sha (c.rand s.prng_seed entropy_mix))
                    config := { s.config with index := s.config.index + 1 } },
           .created label
             { index := s.config.index,
               password := c.sha (c.rand s.prng_seed entropy_mix),
               owner := ownerA, count := count, description := description }) := by
    simp [try_create_offspring, hstop]
  have hreg := try_register_offspring_ok
    { s with prng_seed := c.rand s.prng_seed entropy_mix
             pending := some (c.sha (c.rand s.prng_seed entropy_mix))
             config := { s.config with index := s.config.index + 1 } }
    sender ownerB ⟨i, lbl, c.sha (c.rand s.prng_seed entropy_mix)⟩ aset rfl ha
  refine ⟨_, _, _, hcreate, rfl, hreg, ?_, ?_⟩
  · simp [post_register]
  · simp [post_register, hAB]
    exact hnot

/-- C3: after a successful `DeactivateOffspring`, the record's index is
absent from the global active set, its info is deleted from the active-info
store, and the index is absent from the owner's active set; the record is
appended to the global inactive log and its log position is appended to the
owner's inactive log.  A second `DeactivateOffspring` for the same record
fails — it returns the success-shaped `Missing offspring information` error
response — and leaves the state unchanged. -/
theorem deactivate_moves_record_and_second_call_fails
    (s : State) (sender : Addr) (index : Nat) (owner : Addr)
    (aset : Finset Nat) (info : StoreOffspringInfo)
    (ha : s.active = some aset) (hinfo : s.active_info index = some info)
    (haddr : info.address = sender) (hmem : index ∈ aset) :
    ∃ s', try_deactivate_offspring s sender index owner =
        .ok (s', .deactivated) ∧
      index ∉ s'.active.getD ∅ ∧
      s'.active_info index = none ∧
      index ∉ (s'.owners_active owner).getD ∅ ∧
      s'.inactive_log = s.inactive_log ++ [info.to_store_inactive_offspring_info] ∧
      s'.owners_inactive owner =
        s.owners_inactive owner ++ [s.inactive_log.length] ∧
      s'.inactive_log.get? s.inactive_log.length =
        some info.to_store_inactive_offspring_info ∧
      try_deactivate_offspring s' sender index owner =
        .ok (s', .deactivate_soft_error .missing_offspring_info) := by
  refine ⟨_, try_deactivate_offspring_ok s sender index owner aset info
    ha hinfo haddr hmem, ?_, ?_, ?_, ?_, ?_, ?_, ?_⟩
  · simp [post_deactivate, remove_from_persons_active_active]
  · simp [post_deactivate, remove_from_persons_active_info]
  · simp [post_deactivate, remove_from_persons_active_owners]
    cases s.owners_active owner <;> simp
  · simp [post_deactivate, remove_from_persons_active_log]
  · simp [post_deactivate, remove_from_persons_active_owners_inactive]
  · simp [post_deactivate, remove_from_persons_active_log,
          List.get?_concat_length]
  · apply try_deactivate_offspring_soft
    simp [authenticate_offspring, post_deactivate,
          remove_from_persons_active_active, remove_from_persons_active_info]

/-- C4: a `RegisterOffspring` call whose password equals the pending ticket
deletes the ticket, constructs the offspring record from the caller's
identity together with the label and password of the message (and inserts it
for the owner named in the message), and inserts its index into the global
active set and that owner's active set; and no operation other than
`RegisterOffspring` ever adds a record to the active-info store. -/
theorem register_creates_record_and_is_only_creator :
    (∀ (s : State) (sender owner : Addr) (reg : RegisterOffspringInfo)
       (aset : Finset Nat),
      s.pending = some reg.password → s.active = some aset →
        ∃ s', try_register_offspring s sender owner reg =
            .ok (s', .registered sender) ∧
          s'.pending = none ∧
          s'.active_info reg.index = some (reg.to_store_offspring_info sender) ∧
          s'.active = some (insert reg.index aset) ∧
          reg.index ∈ (s'.owners_active owner).getD ∅) ∧
    (∀ (c : Crypto) (s : State) (m : HandleMsg), m.is_register = false →
      ∀ i r, (step c s m).active_info i = some r → s.active_info i = some r) := by
  constructor
  · intro s sender owner reg aset hp ha
    refine ⟨_, try_register_offspring_ok s sender owner reg aset hp ha,
      ?_, ?_, ?_, ?_⟩ <;> simp [post_register]
  · intro c s m hm i r
    cases m with
    | register_offspring sender owner reg => simp [HandleMsg.is_register] at hm
    | create_offspring sender label em owner count desc =>
      by_cases hstop : s.config.stopped <;>
        simp [step, handle, try_create_offspring, hstop]
    | deactivate_offspring sender index owner =>
      cases hme : (authenticate_offspring s sender index).2.2 with
      | some e =>
        have hsoft : try_deactivate_offspring s sender index owner =
            .ok (s, .deactivate_soft_error e) :=
          try_deactivate_offspring_soft s sender index owner e hme
        have hstep : step c s (.deactivate_offspring sender index owner) = s :=
          step_eq_of_ok (by simpa [handle] using hsoft)
        rw [hstep]
        exact id
      | none =>
        obtain ⟨aset, info, ha, hinfo, haddr, hmem, -⟩ :=
          authenticate_offspring_none s sender index hme
        have hok := try_deactivate_offspring_ok s sender index owner aset info
          ha hinfo haddr hmem
        have hstep : step c s (.deactivate_offspring sender index owner) =
            post_deactivate s index owner aset info :=
          step_eq_of_ok (by simpa [handle] using hok)
        rw [hstep]
        simp only [post_deactivate, remove_from_persons_active_info]
        intro h
        split at h
        · exact absurd h (by simp)
        · exact h
    | create_viewing_key sender entropy =>
      simp [step, handle, try_create_key]
    | set_viewing_key sender key =>
      simp [step, handle, try_set_key]
    | new_offspring_contract sender v =>
      by_cases hadm : s.config.admin ≠ sender <;>
        simp [step, handle, try_new_contract, hadm]
    | set_status sender stop =>
      by_cases hadm : s.config.admin ≠ sender <;>
        simp [step, handle, try_set_status, hadm]

/-- C6: `ListInactiveOffspring` walks the global inactive log backwards from
the exclusive bound `before` (defaulting to, and clamped at, the log length)
and returns up to `page_size` entries (default 200), most recently
deactivated first: the result is the last `pos` log entries reversed and
truncated to the page size, each tagged with its log position.  In
particular, for a log with insert order `[A, B, C]`, `before = none` with
`page_size = 2` returns `[C, B]`, and `before = 1` (B's log index) with
`page_size = 2` returns `[A]`. -/
theorem list_inactive_reverse_pagination :
    (∀ (s : State) (before page_size : Option Nat),
      try_list_inactive s before page_size =
        (let pos := min (before.getD s.inactive_log.length) s.inactive_log.length
         let vec := ((s.inactive_log.enum.take pos).reverse.take
             (page_size.getD 200)).map fun p =>
           { index := some p.1, address := p.2.address, password := p.2.password :
             InactiveOffspringInfo }
         .list_inactive_offspring (if vec.isEmpty then none else some vec))) ∧
    (∀ (s : State) (A B C : StoreInactiveOffspringInfo),
      try_list_inactive { s with inactive_log := [A, B, C] } none (some 2) =
        .list_inactive_offspring (some
          [{ index := some 2, address := C.address, password := C.password },
           { index := some 1, address := B.address, password := B.password }]) ∧
      try_list_inactive { s with inactive_log := [A, B, C] } (some 1) (some 2) =
        .list_inactive_offspring (some
          [{ index := some 0, address := A.address, password := A.password }])) := by
  constructor
  · intro s before page_size
    unfold try_list_inactive
    simp only [enum_reverse_drop]
  · intro s A B C
    constructor <;> rfl

/-- C10: a `ListInactiveOffspring` query whose `before` bound exceeds the
current inactive-log length clamps the bound to the log length and behaves
exactly as `before = none`; and for every combination of `before` and
`page_size`, the query returns an answer whose page holds at most
`page_size` (default 200) entries. -/
theorem list_inactive_before_clamped_and_total :
    (∀ (s : State) (b : Nat) (ps : Option Nat), s.inactive_log.length < b →
      try_list_inactive s (some b) ps = try_list_inactive s none ps) ∧
    (∀ (s : State) (before ps : Option Nat),
      ∃ o, try_list_inactive s before ps = .list_inactive_offspring o ∧
        ∀ l, o = some l → l.length ≤ ps.getD 200) := by
  constructor
  · intro s b ps h
    unfold try_list_inactive
    simp [Nat.min_eq_right (Nat.le_of_lt h)]
  · intro s before ps
    unfold try_list_inactive
    refine ⟨_, rfl, ?_⟩
    intro l hl
    split at hl
    · exact absurd hl (by simp)
    · cases hl
      simp only [List.length_map, List.length_take]
      omega

/-! ### The amended Membership-Index invariant (C1)

The counterexample below (`membership_invariant_violated_by_owner_mismatch`)
shows the invariant fails for arbitrary operation sequences; it holds for
admissible traces (`Adm`): registrations use fresh indices and fresh
passwords, and deactivations name the registration owner.  `Inv` is the
inductive strengthening carried through the execution. -/

/-- Injectivity of the conversion to the inactive storage format. -/
lemma to_store_inactive_inj (r r' : StoreOffspringInfo)
    (h : r.to_store_inactive_offspring_info = r'.to_store_inactive_offspring_info) :
    r = r' := by
  cases r; cases r'
  simpa [StoreOffspringInfo.to_store_inactive_offspring_info] using h

lemma hRegs_append (h h' : List Ev) : hRegs (h ++ h') = hRegs h ++ hRegs h' := by
  simp [hRegs]

lemma hDeacts_append (h h' : List Ev) :
    hDeacts (h ++ h') = hDeacts h ++ hDeacts h' := by
  simp [hDeacts]

lemma hRegs_reg (e : RegEvent) : hRegs [.reg e] = [e] := rfl

lemma hRegs_deact (i : Nat) (o : Addr) : hRegs [.deact i o] = [] := rfl

lemma hDeacts_reg (e : RegEvent) : hDeacts [.reg e] = [] := rfl

lemma hDeacts_deact (i : Nat) (o : Addr) : hDeacts [.deact i o] = [i] := rfl

/-- Inductive invariant relating the factory state to the history of
successful registrations and deactivations. -/
structure Inv (s : State) (h : List Ev) : Prop where
  /-- distinct registrations have distinct indices -/
  idx_inj : ∀ e ∈ hRegs h, ∀ e' ∈ hRegs h, e.index = e'.index → e = e'
  /-- distinct registrations have distinct passwords -/
  pwd_inj : ∀ e ∈ hRegs h, ∀ e' ∈ hRegs h,
    e.record.password = e'.record.password → e = e'
  /-- the global active set exists -/
  active_some : s.active.isSome
  /-- the global active set holds exactly the registered, not-deactivated indices -/
  active_iff : ∀ i, i ∈ s.active.getD ∅ ↔
    ∃ e ∈ hRegs h, e.index = i ∧ i ∉ hDeacts h
  /-- a registered, not-deactivated index stores its record -/
  info_live : ∀ e ∈ hRegs h, e.index ∉ hDeacts h →
    s.active_info e.index = some e.record
  /-- a deactivated index stores nothing -/
  info_dead : ∀ e ∈ hRegs h, e.index ∈ hDeacts h → s.active_info e.index = none
  /-- an unregistered index stores nothing -/
  info_unreg : ∀ i, (∀ e ∈ hRegs h, e.index ≠ i) → s.active_info i = none
  /-- an owner's active set holds exactly that owner's live indices -/
  owner_iff : ∀ o i, i ∈ (s.owners_active o).getD ∅ ↔
    ∃ e ∈ hRegs h, e.index = i ∧ e.owner = o ∧ i ∉ hDeacts h
  /-- every inactive-log entry is the image of a deactivated registration -/
  log_sound : ∀ entry ∈ s.inactive_log, ∃ e ∈ hRegs h, e.index ∈ hDeacts h ∧
    entry = e.record.to_store_inactive_offspring_info
  /-- every deactivated registration is reachable through its owner's inactive list -/
  owner_log_complete : ∀ e ∈ hRegs h, e.index ∈ hDeacts h →
    ∃ p ∈ s.owners_inactive e.owner,
      s.inactive_log.get? p = some e.record.to_store_inactive_offspring_info
  /-- every owner-inactive position resolves to one of that owner's deactivated records -/
  owner_log_sound : ∀ o p, p ∈ s.owners_inactive o →
    ∃ e ∈ hRegs h, e.index ∈ hDeacts h ∧ e.owner = o ∧
      s.inactive_log.get? p = some e.record.to_store_inactive_offspring_info
  /-- only registered indices get deactivated -/
  deact_reg : ∀ i ∈ hDeacts h, ∃ e ∈ hRegs h, e.index = i

/-- The freshly initialized factory satisfies the invariant with the empty
history. -/
lemma Inv_init (c : Crypto) (sender : Addr) (entropy : String)
    (v : OffspringContractInfo) : Inv (init c sender entropy v) [] := by
  constructor <;> simp [init, hRegs, hDeacts]

lemma post_deactivate_active (s : State) (index : Nat) (owner : Addr)
    (aset : Finset Nat) (info : StoreOffspringInfo) :
    (post_deactivate s index owner aset info).active = some (aset.erase index) := by
  simp [post_deactivate, remove_from_persons_active_active]

lemma post_deactivate_info (s : State) (index : Nat) (owner : Addr)
    (aset : Finset Nat) (info : StoreOffspringInfo) :
    (post_deactivate s index owner aset info).active_info =
      fun j => if j = index then none else s.active_info j := by
  simp [post_deactivate, remove_from_persons_active_info]

lemma post_deactivate_log (s : State) (index : Nat) (owner : Addr)
    (aset : Finset Nat) (info : StoreOffspringInfo) :
    (post_deactivate s index owner aset info).inactive_log =
      s.inactive_log ++ [info.to_store_inactive_offspring_info] := by
  simp [post_deactivate, remove_from_persons_active_log]

lemma post_deactivate_owners (s : State) (index : Nat) (owner : Addr)
    (aset : Finset Nat) (info : StoreOffspringInfo) (a : Addr) :
    (post_deactivate s index owner aset info).owners_active a =
      if a = owner then (s.owners_active owner).map (fun set => set.erase index)
      else s.owners_active a := by
  simp [post_deactivate, remove_from_persons_active_owners]

lemma post_deactivate_owners_inactive (s : State) (index : Nat) (owner : Addr)
    (aset : Finset Nat) (info : StoreOffspringInfo) (a : Addr) :
    (post_deactivate s index owner aset info).owners_inactive a =
      if a = owner then s.owners_inactive a ++ [s.inactive_log.length]
      else s.owners_inactive a := by
  by_cases h : a = owner <;>
    simp [post_deactivate, remove_from_persons_active_owners_inactive, h]

/-- Messages other than registration and deactivation; they never touch the
membership stores. -/
def touches_membership : HandleMsg → Bool
  | .register_offspring .. => true
  | .deactivate_offspring .. => true
  | _ => false

lemma step_preserves_membership_stores (c : Crypto) (s : State) (m : HandleMsg)
    (hm : touches_membership m = false) :
    (step c s m).active = s.active ∧
    (step c s m).active_info = s.active_info ∧
    (step c s m).inactive_log = s.inactive_log ∧
    (step c s m).owners_active = s.owners_active ∧
    (step c s m).owners_inactive = s.owners_inactive := by
  cases m with
  | create_offspring sender label em owner count desc =>
    by_cases h : s.config.stopped <;>
      simp [step, handle, try_create_offspring, h]
  | register_offspring sender owner reg => simp [touches_membership] at hm
  | deactivate_offspring sender index owner => simp [touches_membership] at hm
  | create_viewing_key sender entropy => simp [step, handle, try_create_key]
  | set_viewing_key sender key => simp [step, handle, try_set_key]
  | new_offspring_contract sender v =>
    by_cases h : s.config.admin ≠ sender <;>
      simp [step, handle, try_new_contract, h]
  | set_status sender stop =>
    by_cases h : s.config.admin ≠ sender <;>
      simp [step, handle, try_set_status, h]

lemma events_nil_of_non_membership (c : Crypto) (s : State) (m : HandleMsg)
    (hm : touches_membership m = false) : events c s m = [] := by
  cases m <;> simp_all [touches_membership, events]

lemma events_register_of_handle (c : Crypto) (s : State) (sender owner : Addr)
    (reg : RegisterOffspringInfo) (s' : State) (a : Addr)
    (hreg : try_register_offspring s sender owner reg = .ok (s', .registered a)) :
    events c s (.register_offspring sender owner reg) =
      [.reg ⟨reg.index, owner, reg.to_store_offspring_info sender⟩] := by
  simp [events, handle, hreg]

lemma events_register_err (c : Crypto) (s : State) (sender owner : Addr)
    (reg : RegisterOffspringInfo) (msg : String)
    (hreg : try_register_offspring s sender owner reg = .error msg) :
    events c s (.register_offspring sender owner reg) = [] := by
  simp [events, handle, hreg]

lemma events_deactivate_ok (c : Crypto) (s : State) (sender : Addr)
    (index : Nat) (owner : Addr) (s' : State)
    (hd : try_deactivate_offspring s sender index owner = .ok (s', .deactivated)) :
    events c s (.deactivate_offspring sender index owner) = [.deact index owner] := by
  simp [events, handle, hd]

lemma events_deactivate_soft (c : Crypto) (s : State) (sender : Addr)
    (index : Nat) (owner : Addr) (e : SoftError)
    (hd : try_deactivate_offspring s sender index owner =
      .ok (s, .deactivate_soft_error e)) :
    events c s (.deactivate_offspring sender index owner) = [] := by
  simp [events, handle, hd]

/-- Operations that do not touch the membership stores preserve `Inv`. -/
lemma Inv_step_non_membership (c : Crypto) (s : State) (h : List Ev)
    (m : HandleMsg) (hm : touches_membership m = false) (hInv : Inv s h) :
    Inv (step c s m) (h ++ events c s m) := by
  obtain ⟨h1, h2, h3, h4, h5⟩ := step_preserves_membership_stores c s m hm
  rw [events_nil_of_non_membership c s m hm, List.append_nil]
  refine ⟨hInv.idx_inj, hInv.pwd_inj, ?_, ?_, ?_, ?_, ?_, ?_, ?_, ?_, ?_,
    hInv.deact_reg⟩
  · rw [h1]; exact hInv.active_some
  · intro i; rw [h1]; exact hInv.active_iff i
  · intro e he hd; rw [h2]; exact hInv.info_live e he hd
  · intro e he hd; rw [h2]; exact hInv.info_dead e he hd
  · intro i hi; rw [h2]; exact hInv.info_unreg i hi
  · intro o i; rw [h4]; exact hInv.owner_iff o i
  · intro entry hent; rw [h3] at hent; exact hInv.log_sound entry hent
  · intro e he hd; rw [h5, h3]; exact hInv.owner_log_complete e he hd
  · intro o p hp; rw [h5] at hp; rw [h3]; exact hInv.owner_log_sound o p hp

/-- Registration preserves `Inv` for admissible traces. -/
lemma Inv_step_register (c : Crypto) (s : State) (h : List Ev)
    (sender owner : Addr) (reg : RegisterOffspringInfo) (hInv : Inv s h)
    (hc : cond s h (.register_offspring sender owner reg)) :
    Inv (step c s (.register_offspring sender owner reg))
      (h ++ events c s (.register_offspring sender owner reg)) := by
  cases hpend : s.pending with
  | none =>
    have herr := try_register_offspring_no_ticket s sender owner reg hpend
    rw [events_register_err c s sender owner reg _ herr, List.append_nil,
      step_eq_of_error (by simpa [handle] using herr)]
    exact hInv
  | some p =>
    by_cases hp : p = reg.password
    · subst hp
      have hfresh : ∀ e ∈ hRegs h, e.index ≠ reg.index ∧
          e.record.password ≠ reg.password := hc hpend
      obtain ⟨aset, ha⟩ := Option.isSome_iff_exists.1 hInv.active_some
      have hok := try_register_offspring_ok s sender owner reg aset hpend ha
      have hstep : step c s (.register_offspring sender owner reg) =
          post_register s sender owner reg aset :=
        step_eq_of_ok (by simpa [handle] using hok)
      have hev := events_register_of_handle c s sender owner reg _ sender hok
      rw [hstep, hev]
      have hregs' : hRegs (h ++ [.reg ⟨reg.index, owner,
          reg.to_store_offspring_info sender⟩]) =
          hRegs h ++ [⟨reg.index, owner, reg.to_store_offspring_info sender⟩] := by
        rw [hRegs_append]; rfl
      have hdeacts' : hDeacts (h ++ [.reg ⟨reg.index, owner,
          reg.to_store_offspring_info sender⟩]) = hDeacts h := by
        rw [hDeacts_append]; simp [hDeacts]
      have hnd : reg.index ∉ hDeacts h := by
        intro hd
        obtain ⟨e0, he0, hidx⟩ := hInv.deact_reg _ hd
        exact (hfresh e0 he0).1 hidx
      constructor
      · -- idx_inj
        intro e he e2 he2 heq
        rw [hregs'] at he he2
        rcases List.mem_append.1 he with he | he <;>
          rcases List.mem_append.1 he2 with he2 | he2
        · exact hInv.idx_inj e he e2 he2 heq
        · have : e2 = ⟨reg.index, owner, reg.to_store_offspring_info sender⟩ := by
            simpa using he2
          subst this
          exact absurd heq (hfresh e he).1
        · have : e = ⟨reg.index, owner, reg.to_store_offspring_info sender⟩ := by
            simpa using he
          subst this
          exact absurd heq.symm (hfresh e2 he2).1
        · have h1 : e = ⟨reg.index, owner, reg.to_store_offspring_info sender⟩ := by
            simpa using he
          have h2 : e2 = ⟨reg.index, owner, reg.to_store_offspring_info sender⟩ := by
            simpa using he2
          rw [h1, h2]
      · -- pwd_inj
        intro e he e2 he2 heq
        rw [hregs'] at he he2
        rcases List.mem_append.1 he with he | he <;>
          rcases List.mem_append.1 he2 with he2 | he2
        · exact hInv.pwd_inj e he e2 he2 heq
        · have : e2 = ⟨reg.index, owner, reg.to_store_offspring_info sender⟩ := by
            simpa using he2
          subst this
          exact absurd heq (hfresh e he).2
        · have : e = ⟨reg.index, owner, reg.to_store_offspring_info sender⟩ := by
            simpa using he
          subst this
          exact absurd heq.symm (hfresh e2 he2).2
        · have h1 : e = ⟨reg.index, owner, reg.to_store_offspring_info sender⟩ := by
            simpa using he
          have h2 : e2 = ⟨reg.index, owner, reg.to_store_offspring_info sender⟩ := by
            simpa using he2
          rw [h1, h2]
      · -- active_some
        simp [post_register]
      · -- active_iff
        intro i
        simp only [post_register, Option.getD_some, Finset.mem_insert,
          hregs', hdeacts']
        constructor
        · rintro (rfl | hi)
          · exact ⟨⟨reg.index, owner, reg.to_store_offspring_info sender⟩,
              List.mem_append_right _ (by simp), rfl, hnd⟩
          · obtain ⟨e, he, hei, hend⟩ := (hInv.active_iff i).1 (by rw [ha]; exact hi)
            exact ⟨e, List.mem_append_left _ he, hei, hend⟩
        · rintro ⟨e, he, hei, hend⟩
          rcases List.mem_append.1 he with he | he
          · right
            have := (hInv.active_iff i).2 ⟨e, he, hei, hend⟩
            rw [ha] at this
            exact this
          · left
            have : e = ⟨reg.index, owner, reg.to_store_offspring_info sender⟩ := by
              simpa using he
            rw [← hei, this]
      · -- info_live
        intro e he hd
        rw [hregs'] at he
        rw [hdeacts'] at hd
        rcases List.mem_append.1 he with he | he
        · have hne : e.index ≠ reg.index := (hfresh e he).1
          simp only [post_register]
          rw [if_neg hne]
          exact hInv.info_live e he hd
        · have : e = ⟨reg.index, owner, reg.to_store_offspring_info sender⟩ := by
            simpa using he
          subst this
          simp [post_register]
      · -- info_dead
        intro e he hd
        rw [hregs'] at he
        rw [hdeacts'] at hd
        rcases List.mem_append.1 he with he | he
        · have hne : e.index ≠ reg.index := (hfresh e he).1
          simp only [post_register]
          rw [if_neg hne]
          exact hInv.info_dead e he hd
        · have : e = ⟨reg.index, owner, reg.to_store_offspring_info sender⟩ := by
            simpa using he
          subst this
          exact absurd hd hnd
      · -- info_unreg
        intro i hi
        rw [hregs'] at hi
        have hno : reg.index ≠ i :=
          hi ⟨reg.index, owner, reg.to_store_offspring_info sender⟩
            (List.mem_append_right _ (by simp))
        simp only [post_register]
        rw [if_neg (fun hh => hno hh.symm)]
        exact hInv.info_unreg i (fun e he => hi e (List.mem_append_left _ he))
      · -- owner_iff
        intro o i
        simp only [post_register, hregs', hdeacts']
        by_cases ho : o = owner
        · subst ho
          rw [if_pos rfl]
          simp only [Option.getD_some, Finset.mem_insert]
          constructor
          · rintro (rfl | hi)
            · exact ⟨⟨reg.index, o, reg.to_store_offspring_info sender⟩,
                List.mem_append_right _ (by simp), rfl, rfl, hnd⟩
            · obtain ⟨e, he, hei, heo, hend⟩ := (hInv.owner_iff o i).1 hi
              exact ⟨e, List.mem_append_left _ he, hei, heo, hend⟩
          · rintro ⟨e, he, hei, heo, hend⟩
            rcases List.mem_append.1 he with he | he
            · right
              exact (hInv.owner_iff o i).2 ⟨e, he, hei, heo, hend⟩
            · left
              have : e = ⟨reg.index, o, reg.to_store_offspring_info sender⟩ := by
                simpa using he
              rw [← hei, this]
        · rw [if_neg ho]
          constructor
          · intro hi
            obtain ⟨e, he, hei, heo, hend⟩ := (hInv.owner_iff o i).1 hi
            exact ⟨e, List.mem_append_left _ he, hei, heo, hend⟩
          · rintro ⟨e, he, hei, heo, hend⟩
            rcases List.mem_append.1 he with he | he
            · exact (hInv.owner_iff o i).2 ⟨e, he, hei, heo, hend⟩
            · have : e = ⟨reg.index, owner, reg.to_store_offspring_info sender⟩ := by
                simpa using he
              rw [this] at heo
              exact absurd heo.symm ho
      · -- log_sound
        intro entry hent
        simp only [post_register] at hent
        obtain ⟨e, he, hd, heq⟩ := hInv.log_sound entry hent
        exact ⟨e, by rw [hregs']; exact List.mem_append_left _ he,
          by rw [hdeacts']; exact hd, heq⟩
      · -- owner_log_complete
        intro e he hd
        rw [hregs'] at he
        rw [hdeacts'] at hd
        rcases List.mem_append.1 he with he | he
        · obtain ⟨p', hp', hget⟩ := hInv.owner_log_complete e he hd
          exact ⟨p', hp', hget⟩
        · have : e = ⟨reg.index, owner, reg.to_store_offspring_info sender⟩ := by
            simpa using he
          subst this
          exact absurd hd hnd
      · -- owner_log_sound
        intro o p' hp'
        simp only [post_register] at hp'
        obtain ⟨e, he, hd, heo, hget⟩ := hInv.owner_log_sound o p' hp'
        exact ⟨e, by rw [hregs']; exact List.mem_append_left _ he,
          by rw [hdeacts']; exact hd, heo, hget⟩
      · -- deact_reg
        rw [hdeacts', hregs']
        intro i hd
        obtain ⟨e, he, hi⟩ := hInv.deact_reg i hd
        exact ⟨e, List.mem_append_left _ he, hi⟩
    · have herr := try_register_offspring_mismatch s sender owner reg p hpend
        (fun hh => hp hh.symm)
      rw [events_register_err c s sender owner reg _ herr, List.append_nil,
        step_eq_of_error (by simpa [handle] using herr)]
      exact hInv

/-- Deactivation preserves `Inv` for admissible traces. -/
lemma Inv_step_deactivate (c : Crypto) (s : State) (h : List Ev)
    (sender : Addr) (index : Nat) (owner : Addr) (hInv : Inv s h)
    (hc : cond s h (.deactivate_offspring sender index owner)) :
    Inv (step c s (.deactivate_offspring sender index owner))
      (h ++ events c s (.deactivate_offspring sender index owner)) := by
  cases hme : (authenticate_offspring s sender index).2.2 with
  | some e =>
    have hsoft := try_deactivate_offspring_soft s sender index owner e hme
    have hstep : step c s (.deactivate_offspring sender index owner) = s :=
      step_eq_of_ok (by simpa [handle] using hsoft)
    rw [events_deactivate_soft c s sender index owner e hsoft,
      List.append_nil, hstep]
    exact hInv
  | none =>
    obtain ⟨aset, info, ha, hinfo, haddr, hmem, -⟩ :=
      authenticate_offspring_none s sender index hme
    have howner : ∀ e ∈ hRegs h, e.index = index → e.owner = owner := hc hme
    have hok := try_deactivate_offspring_ok s sender index owner aset info
      ha hinfo haddr hmem
    have hstep : step c s (.deactivate_offspring sender index owner) =
        post_deactivate s index owner aset info :=
      step_eq_of_ok (by simpa [handle] using hok)
    have hev := events_deactivate_ok c s sender index owner _ hok
    rw [hstep, hev]
    have hregs' : hRegs (h ++ [.deact index owner]) = hRegs h := by
      rw [hRegs_append]; simp [hRegs]
    have hdeacts' : hDeacts (h ++ [.deact index owner]) = hDeacts h ++ [index] := by
      rw [hDeacts_append]; rfl
    obtain ⟨e0, he0, he0idx, he0nd⟩ := (hInv.active_iff index).1 (by
      rw [ha]; exact hmem)
    have hinfo_eq : info = e0.record := by
      have hlive := hInv.info_live e0 he0 (by rw [he0idx]; exact he0nd)
      rw [he0idx, hinfo] at hlive
      exact Option.some.inj hlive
    have he0own : e0.owner = owner := howner e0 he0 he0idx
    have huniq : ∀ e ∈ hRegs h, e.index = index → e = e0 := fun e he hei =>
      hInv.idx_inj e he e0 he0 (by rw [hei, he0idx])
    constructor
    · -- idx_inj
      rw [hregs']; exact hInv.idx_inj
    · -- pwd_inj
      rw [hregs']; exact hInv.pwd_inj
    · -- active_some
      rw [post_deactivate_active]; rfl
    · -- active_iff
      intro i
      rw [post_deactivate_active]
      simp only [hregs', hdeacts', Option.getD_some, Finset.mem_erase,
        List.mem_append, List.mem_singleton]
      constructor
      · rintro ⟨hne, hia⟩
        obtain ⟨e, he, hei, hnd⟩ := (hInv.active_iff i).1 (by rw [ha]; exact hia)
        exact ⟨e, he, hei, by push_neg; exact ⟨hnd, hne⟩⟩
      · rintro ⟨e, he, hei, hnd⟩
        push_neg at hnd
        refine ⟨hnd.2, ?_⟩
        have := (hInv.active_iff i).2 ⟨e, he, hei, hnd.1⟩
        rw [ha] at this
        exact this
    · -- info_live
      intro e he hd
      rw [hregs'] at he
      rw [hdeacts'] at hd
      simp only [List.mem_append, List.mem_singleton] at hd
      push_neg at hd
      rw [post_deactivate_info]
      simp only
      rw [if_neg hd.2]
      exact hInv.info_live e he hd.1
    · -- info_dead
      intro e he hd
      rw [hregs'] at he
      rw [post_deactivate_info]
      simp only
      by_cases hx : e.index = index
      · rw [if_pos hx]
      · rw [if_neg hx]
        rw [hdeacts'] at hd
        simp only [List.mem_append, List.mem_singleton] at hd
        rcases hd with hd | hd
        · exact hInv.info_dead e he hd
        · exact absurd hd hx
    · -- info_unreg
      intro i hi
      rw [hregs'] at hi
      rw [post_deactivate_info]
      simp only
      by_cases hx : i = index
      · rw [if_pos hx]
      · rw [if_neg hx]
        exact hInv.info_unreg i hi
    · -- owner_iff
      intro o i
      rw [post_deactivate_owners]
      simp only [hregs', hdeacts']
      by_cases ho : o = owner
      · subst ho
        rw [if_pos rfl]
        cases hoa : s.owners_active o with
        | none =>
          simp only [Option.map_none', Option.getD_none, Finset.not_mem_empty,
            false_iff]
          rintro ⟨e, he, hei, heo, hnd⟩
          have := (hInv.owner_iff o i).2 ⟨e, he, hei, heo, by
            intro hmem'
            exact hnd (List.mem_append_left _ hmem')⟩
          rw [hoa] at this
          simp at this
        | some oset =>
          simp only [Option.map_some', Option.getD_some, Finset.mem_erase,
            List.mem_append, List.mem_singleton]
          constructor
          · rintro ⟨hne, hio⟩
            have hio' := (hInv.owner_iff o i).1 (by rw [hoa]; exact hio)
            obtain ⟨e, he, hei, heo, hnd⟩ := hio'
            exact ⟨e, he, hei, heo, by push_neg; exact ⟨hnd, hne⟩⟩
          · rintro ⟨e, he, hei, heo, hnd⟩
            push_neg at hnd
            refine ⟨hnd.2, ?_⟩
            have := (hInv.owner_iff o i).2 ⟨e, he, hei, heo, hnd.1⟩
            rw [hoa] at this
            exact this
      · rw [if_neg ho]
        constructor
        · intro hio
          obtain ⟨e, he, hei, heo, hnd⟩ := (hInv.owner_iff o i).1 hio
          have hne : i ≠ index := by
            intro hx
            subst hx
            exact ho (heo ▸ howner e he hei)
          exact ⟨e, he, hei, heo, by
            simp only [List.mem_append, List.mem_singleton]
            push_neg
            exact ⟨hnd, hne⟩⟩
        · rintro ⟨e, he, hei, heo, hnd⟩
          simp only [List.mem_append, List.mem_singleton] at hnd
          push_neg at hnd
          exact (hInv.owner_iff o i).2 ⟨e, he, hei, heo, hnd.1⟩
    · -- log_sound
      intro entry hent
      rw [post_deactivate_log] at hent
      rcases List.mem_append.1 hent with hold | hnew
      · obtain ⟨e, he, hd, heq⟩ := hInv.log_sound entry hold
        exact ⟨e, by rw [hregs']; exact he, by
          rw [hdeacts']; exact List.mem_append_left _ hd, heq⟩
      · have : entry = info.to_store_inactive_offspring_info := by simpa using hnew
        exact ⟨e0, by rw [hregs']; exact he0, by
          rw [hdeacts']
          exact List.mem_append_right _ (by simp [he0idx]), by
          rw [this, hinfo_eq]⟩
    · -- owner_log_complete
      intro e he hd
      rw [hregs'] at he
      rw [hdeacts'] at hd
      simp only [List.mem_append, List.mem_singleton] at hd
      rcases hd with hd | hd
      · obtain ⟨p, hp, hget⟩ := hInv.owner_log_complete e he hd
        have hlt : p < s.inactive_log.length := by
          by_contra hge
          push_neg at hge
          rw [List.get?_eq_none.2 hge] at hget
          exact Option.noConfusion hget
        refine ⟨p, ?_, ?_⟩
        · rw [post_deactivate_owners_inactive]
          by_cases hx : e.owner = owner
          · rw [if_pos hx]; exact List.mem_append_left _ hp
          · rw [if_neg hx]; exact hp
        · rw [post_deactivate_log, List.get?_append hlt]
          exact hget
      · have he_eq : e = e0 := huniq e he hd
        refine ⟨s.inactive_log.length, ?_, ?_⟩
        · rw [post_deactivate_owners_inactive, he_eq, he0own, if_pos rfl]
          exact List.mem_append_right _ (by simp)
        · rw [post_deactivate_log, List.get?_concat_length, he_eq, ← hinfo_eq]
    · -- owner_log_sound
      intro o p hp
      rw [post_deactivate_owners_inactive] at hp
      by_cases ho : o = owner
      · rw [if_pos ho] at hp
        rcases List.mem_append.1 hp with hpold | hpnew
        · obtain ⟨e, he, hd, heo, hget⟩ := hInv.owner_log_sound o p hpold
          have hlt : p < s.inactive_log.length := by
            by_contra hge
            push_neg at hge
            rw [List.get?_eq_none.2 hge] at hget
            exact Option.noConfusion hget
          exact ⟨e, by rw [hregs']; exact he, by
            rw [hdeacts']; exact List.mem_append_left _ hd, heo, by
            rw [post_deactivate_log, List.get?_append hlt]; exact hget⟩
        · have hpl : p = s.inactive_log.length := by simpa using hpnew
          exact ⟨e0, by rw [hregs']; exact he0, by
            rw [hdeacts']
            exact List.mem_append_right _ (by simp [he0idx]), by
            rw [he0own, ho], by
            rw [post_deactivate_log, hpl, List.get?_concat_length, ← hinfo_eq]⟩
      · rw [if_neg ho] at hp
        obtain ⟨e, he, hd, heo, hget⟩ := hInv.owner_log_sound o p hp
        have hlt : p < s.inactive_log.length := by
          by_contra hge
          push_neg at hge
          rw [List.get?_eq_none.2 hge] at hget
          exact Option.noConfusion hget
        exact ⟨e, by rw [hregs']; exact he, by
          rw [hdeacts']; exact List.mem_append_left _ hd, heo, by
          rw [post_deactivate_log, List.get?_append hlt]; exact hget⟩
    · -- deact_reg
      rw [hdeacts', hregs']
      intro i hi
      rcases List.mem_append.1 hi with hi | hi
      · exact hInv.deact_reg i hi
      · have : i = index := by simpa using hi
        exact ⟨e0, he0, by rw [this, he0idx]⟩

/-- One admissible invocation preserves `Inv`. -/
lemma Inv_step (c : Crypto) (s : State) (h : List Ev) (m : HandleMsg)
    (hInv : Inv s h) (hc : cond s h m) :
    Inv (step c s m) (h ++ events c s m) := by
  cases m with
  | register_offspring sender owner reg =>
    exact Inv_step_register c s h sender owner reg hInv hc
  | deactivate_offspring sender index owner =>
    exact Inv_step_deactivate c s h sender index owner hInv hc
  | create_offspring sender label em owner count desc =>
    exact Inv_step_non_membership c s h _ rfl hInv
  | create_viewing_key sender entropy =>
    exact Inv_step_non_membership c s h _ rfl hInv
  | set_viewing_key sender key =>
    exact Inv_step_non_membership c s h _ rfl hInv
  | new_offspring_contract sender v =>
    exact Inv_step_non_membership c s h _ rfl hInv
  | set_status sender stop =>
    exact Inv_step_non_membership c s h _ rfl hInv

/-- An admissible trace preserves `Inv` along the whole execution. -/
lemma Inv_execH (c : Crypto) (msgs : List HandleMsg) :
    ∀ (s : State) (h : List Ev), Inv s h → Adm c s h msgs →
      Inv (execH c (s, h) msgs).1 (execH c (s, h) msgs).2 := by
  induction msgs with
  | nil => intro s h hInv _; exact hInv
  | cons m ms ih =>
    intro s h hInv hadm
    exact ih (step c s m) (h ++ events c s m)
      (Inv_step c s h m hInv hadm.1) hadm.2

/-- `Inv` implies the Membership-Index exactly-one property for every
registered record. -/
lemma exactly_one_of_Inv (s : State) (h : List Ev) (hInv : Inv s h) :
    ∀ e ∈ hRegs h,
      ExactlyOne (in_global_active s e.record) (in_global_inactive s e.record) ∧
      ExactlyOne (in_owner_active s e.owner e.record)
        (in_owner_inactive s e.owner e.record) := by
  intro e he
  by_cases hd : e.index ∈ hDeacts h
  · -- the record was deactivated: inactive side only
    have hnGA : ¬ in_global_active s e.record := by
      rintro ⟨i, hi, hinfo⟩
      obtain ⟨e', he', hei, hnd⟩ := (hInv.active_iff i).1 hi
      have hlive := hInv.info_live e' he' (by rw [hei]; exact hnd)
      rw [hei, hinfo] at hlive
      have hrec : e.record = e'.record := Option.some.inj hlive
      have heq : e = e' := hInv.pwd_inj e he e' he' (by rw [hrec])
      rw [heq, hei] at hd
      exact hnd hd
    have hnOA : ¬ in_owner_active s e.owner e.record := by
      rintro ⟨i, hi, hinfo⟩
      obtain ⟨e', he', hei, heo, hnd⟩ := (hInv.owner_iff e.owner i).1 hi
      have hlive := hInv.info_live e' he' (by rw [hei]; exact hnd)
      rw [hei, hinfo] at hlive
      have hrec : e.record = e'.record := Option.some.inj hlive
      have heq : e = e' := hInv.pwd_inj e he e' he' (by rw [hrec])
      rw [heq, hei] at hd
      exact hnd hd
    obtain ⟨p, hp, hget⟩ := hInv.owner_log_complete e he hd
    have hGI : in_global_inactive s e.record := List.get?_mem hget
    have hOI : in_owner_inactive s e.owner e.record := ⟨p, hp, hget⟩
    exact ⟨Or.inr ⟨hGI, hnGA⟩, Or.inr ⟨hOI, hnOA⟩⟩
  · -- the record is live: active side only
    have hinfo := hInv.info_live e he hd
    have hGA : in_global_active s e.record :=
      ⟨e.index, (hInv.active_iff e.index).2 ⟨e, he, rfl, hd⟩, hinfo⟩
    have hOA : in_owner_active s e.owner e.record :=
      ⟨e.index, (hInv.owner_iff e.owner e.index).2 ⟨e, he, rfl, rfl, hd⟩, hinfo⟩
    have hnGI : ¬ in_global_inactive s e.record := by
      intro hGI
      obtain ⟨e', he', hd', heq⟩ := hInv.log_sound _ hGI
      have hrec : e.record = e'.record := to_store_inactive_inj _ _ heq
      have : e = e' := hInv.pwd_inj e he e' he' (by rw [hrec])
      rw [this] at hd
      exact hd hd'
    have hnOI : ¬ in_owner_inactive s e.owner e.record := by
      rintro ⟨p, hp, hget⟩
      exact hnGI (List.get?_mem hget)
    exact ⟨Or.inl ⟨hGA, hnGI⟩, Or.inl ⟨hOA, hnOI⟩⟩

/-- C1 (amended): for every admissible operation sequence from the freshly
initialized factory — every successful registration uses a fresh index and a
fresh password, and every successful deactivation names the owner under which
its index was registered (`Adm`) — each registered offspring record appears
in exactly one of the Global Active / Global Inactive indices and in exactly
one of its registration owner's Active / Inactive indices in the resulting
state.  Since this holds for every admissible prefix, no state between
invocations violates the invariant: each invocation moves the global and
owner-scoped memberships together.  (The unrestricted claim is refuted by
`membership_invariant_violated_by_owner_mismatch`.) -/
theorem membership_invariant_for_admissible_traces
    (c : Crypto) (creator : Addr) (entropy : String) (v : OffspringContractInfo)
    (msgs : List HandleMsg)
    (hadm : Adm c (init c creator entropy v) [] msgs) :
    ∀ e ∈ hRegs (execH c (init c creator entropy v, []) msgs).2,
      ExactlyOne
        (in_global_active (execH c (init c creator entropy v, []) msgs).1 e.record)
        (in_global_inactive (execH c (init c creator entropy v, []) msgs).1 e.record) ∧
      ExactlyOne
        (in_owner_active (execH c (init c creator entropy v, []) msgs).1
          e.owner e.record)
        (in_owner_inactive (execH c (init c creator entropy v, []) msgs).1
          e.owner e.record) :=
  exactly_one_of_Inv _ _
    (Inv_execH c msgs (init c creator entropy v) []
      (Inv_init c creator entropy v) hadm)

end Factory

namespace Factory

/-! ### Concrete instantiations used by counterexamples and witnesses -/

/-- A sample instantiation of the opaque cryptographic primitives. -/
def cryptoW : Crypto :=
  { sha := fun n => n + 1
    rand := fun a b => a + b
    vk_hash := fun st => st.length
    vk_new := fun _ e => e
    init_seed := fun e => e.length }

/-- A sample offspring contract version. -/
def versionW : OffspringContractInfo := { code_id := 1, code_hash := "h" }

/-- The factory state freshly initialized by `"admin"`. -/
def initW : State := init cryptoW "admin" "entropy" versionW

/-- C7 counterexample: `RegisterOffspring` does NOT produce the same error
message when no ticket is pending as when the supplied password mismatches
the pending ticket: with no pending ticket it fails with
`Unable to authenticate registration.`, while with a pending ticket `5` and
supplied password `7` it fails with
`password does not match the offspring we are creating` — two distinct
messages, refuting the claim that registration failures are
indistinguishable. -/
theorem register_error_messages_differ :
    try_register_offspring initW "off1" "alice" ⟨0, "L", 7⟩ =
      .error "Unable to authenticate registration." ∧
    try_register_offspring { initW with pending := some 5 } "off1" "alice"
        ⟨0, "L", 7⟩ =
      .error "password does not match the offspring we are creating" ∧
    "Unable to authenticate registration." ≠
      "password does not match the offspring we are creating" := by
  refine ⟨rfl, rfl, by decide⟩

/-- C7 amended: viewing-key authentication failures are surfaced with one
generic message that does not distinguish a wrong key from no key being set
(`try_list_my` answers the same `ViewingKeyError` in both cases), and
unauthorized deactivation attempts get success-shaped soft responses; but
`RegisterOffspring` distinguishes its two failure causes with different
messages (`Unable to authenticate registration.` when no ticket is pending
vs `password does not match the offspring we are creating` on a mismatch),
and deactivation surfaces distinct soft responses for a missing record vs an
unauthorized caller. -/
theorem auth_failure_messages_amended :
    (∀ (c : Crypto) (s : State) (a : Addr) (k : String) (f : Option FilterTypes),
      s.view_keys a = none →
        try_list_my c s a k f = .viewing_key_error
          "Wrong viewing key for this address or viewing key not set") ∧
    (∀ (c : Crypto) (s : State) (a : Addr) (k : String) (f : Option FilterTypes)
       (e : Bytes32),
      s.view_keys a = some e → c.vk_hash k ≠ e →
        try_list_my c s a k f = .viewing_key_error
          "Wrong viewing key for this address or viewing key not set") ∧
    (∀ (s : State) (sender owner : Addr) (reg : RegisterOffspringInfo),
      s.pending = none →
        try_register_offspring s sender owner reg =
          .error "Unable to authenticate registration.") ∧
    (∀ (s : State) (sender owner : Addr) (reg : RegisterOffspringInfo)
       (p : Bytes32),
      s.pending = some p → reg.password ≠ p →
        try_register_offspring s sender owner reg =
          .error "password does not match the offspring we are creating") ∧
    (∀ (s : State) (sender : Addr) (i : Nat) (owner : Addr) (aset : Finset Nat),
      s.active = some aset → s.active_info i = none →
        try_deactivate_offspring s sender i owner =
          .ok (s, .deactivate_soft_error .missing_offspring_info)) ∧
    (∀ (s : State) (sender : Addr) (i : Nat) (owner : Addr) (aset : Finset Nat)
       (info : StoreOffspringInfo),
      s.active = some aset → s.active_info i = some info →
      info.address ≠ sender →
        try_deactivate_offspring s sender i owner =
          .ok (s, .deactivate_soft_error .unauthorized)) ∧
    SoftError.missing_offspring_info ≠ SoftError.unauthorized := by
  refine ⟨?_, ?_, ?_, ?_, ?_, ?_, by decide⟩
  · intro c s a k f h
    simp [try_list_my, is_key_valid, h]
  · intro c s a k f e h hne
    simp [try_list_my, is_key_valid, check_viewing_key, h, hne]
  · intro s sender owner reg h
    exact try_register_offspring_no_ticket s sender owner reg h
  · intro s sender owner reg p h hne
    exact try_register_offspring_mismatch s sender owner reg p h hne
  · intro s sender i owner aset ha hinfo
    apply try_deactivate_offspring_soft
    simp [authenticate_offspring, ha, hinfo]
  · intro s sender i owner aset info ha hinfo haddr
    apply try_deactivate_offspring_soft
    simp [authenticate_offspring, ha, hinfo, haddr]

/-- The password generated by the first `CreateOffspring` on `initW`. -/
def passwordW : Bytes32 := cryptoW.sha (cryptoW.rand initW.prng_seed 5)

/-- The record registered in the C1 counterexample trace. -/
def recordW : StoreOffspringInfo :=
  { address := "off1", label := "L", password := passwordW }

/-- The C1 counterexample trace: create for owner `"alice"`, register under
owner `"alice"`, then deactivate naming owner `"bob"` — all three are
ordinary registry invocations that the factory accepts. -/
def traceW : List HandleMsg :=
  [.create_offspring "alice" "L" 5 "alice" 0 none,
   .register_offspring "off1" "alice" ⟨0, "L", passwordW⟩,
   .deactivate_offspring "off1" 0 "bob"]

/-- C1 counterexample: the Membership-Index invariant is violated by a
reachable state.  Running `traceW` from the freshly initialized factory
registers `recordW` under owner `"alice"` and then successfully deactivates
it with owner `"bob"` in the message.  In the resulting state the registered
record `recordW` appears in its owner `"alice"`'s Active index in NO form
and in `"alice"`'s Inactive index in no form either — it appears in exactly
one of zero, not exactly one of one, of the owner-scoped indices, refuting
the claim for every reachable state. -/
theorem membership_invariant_violated_by_owner_mismatch :
    hRegs (execH cryptoW (initW, []) traceW).2 =
      [{ index := 0, owner := "alice", record := recordW }] ∧
    ExactlyOne (in_global_active (execH cryptoW (initW, []) traceW).1 recordW)
      (in_global_inactive (execH cryptoW (initW, []) traceW).1 recordW) ∧
    ¬ in_owner_active (execH cryptoW (initW, []) traceW).1 "alice" recordW ∧
    ¬ in_owner_inactive (execH cryptoW (initW, []) traceW).1 "alice" recordW := by
  refine ⟨by decide, by decide, by decide, by decide⟩

/-- The admissible variant of the counterexample trace: the deactivation
names the registration owner. -/
def traceGoodW : List HandleMsg :=
  [.create_offspring "alice" "L" 5 "alice" 0 none,
   .register_offspring "off1" "alice" ⟨0, "L", passwordW⟩,
   .deactivate_offspring "off1" 0 "alice"]

/-- Witness for C1 (amended) on the concrete admissible trace `traceGoodW`. -/
theorem membership_invariant_for_admissible_traces_witness :
    Adm cryptoW (init cryptoW "admin" "entropy" versionW) [] traceGoodW ∧
    ({ index := 0, owner := "alice", record := recordW } : RegEvent) ∈
      hRegs (execH cryptoW (init cryptoW "admin" "entropy" versionW, [])
        traceGoodW).2 ∧
    (ExactlyOne
      (in_global_active
        (execH cryptoW (init cryptoW "admin" "entropy" versionW, []) traceGoodW).1
        recordW)
      (in_global_inactive
        (execH cryptoW (init cryptoW "admin" "entropy" versionW, []) traceGoodW).1
        recordW) ∧
     ExactlyOne
      (in_owner_active
        (execH cryptoW (init cryptoW "admin" "entropy" versionW, []) traceGoodW).1
        "alice" recordW)
      (in_owner_inactive
        (execH cryptoW (init cryptoW "admin" "entropy" versionW, []) traceGoodW).1
        "alice" recordW)) :=
  ⟨by decide, by decide,
    membership_invariant_for_admissible_traces cryptoW "admin" "entropy"
      versionW traceGoodW (by decide)
      { index := 0, owner := "alice", record := recordW } (by decide)⟩

/-- A state with a pending ticket `5`. -/
def pendW : State := { initW with pending := some 5 }

/-- Witness for C2: password `7` against pending ticket `5` is rejected and
the invocation leaves the state unchanged. -/
theorem register_bad_password_rejected_without_mutation_witness :
    (∃ msg, try_register_offspring pendW "off1" "alice" ⟨0, "L", 7⟩ =
      .error msg) ∧
    ∀ c : Crypto, step c pendW (.register_offspring "off1" "alice" ⟨0, "L", 7⟩) =
      pendW :=
  register_bad_password_rejected_without_mutation pendW "off1" "alice"
    ⟨0, "L", 7⟩ (by
      intro p hp
      have hp' : some (5 : Bytes32) = some p := hp
      have hp5 : p = 5 := (Option.some.inj hp').symm
      rw [hp5]
      decide)

/-- A state with one active record (index 0, address `off1`). -/
def activeW : State :=
  { initW with active := some {0}
               active_info := fun j => if j = 0 then some recordW else none }

/-- Witness for C3 on `activeW`. -/
theorem deactivate_moves_record_and_second_call_fails_witness :
    ∃ s', try_deactivate_offspring activeW "off1" 0 "alice" =
        .ok (s', .deactivated) ∧
      0 ∉ s'.active.getD ∅ ∧
      s'.active_info 0 = none ∧
      0 ∉ (s'.owners_active "alice").getD ∅ ∧
      s'.inactive_log =
        activeW.inactive_log ++ [recordW.to_store_inactive_offspring_info] ∧
      s'.owners_inactive "alice" =
        activeW.owners_inactive "alice" ++ [activeW.inactive_log.length] ∧
      s'.inactive_log.get? activeW.inactive_log.length =
        some recordW.to_store_inactive_offspring_info ∧
      try_deactivate_offspring s' "off1" 0 "alice" =
        .ok (s', .deactivate_soft_error .missing_offspring_info) :=
  deactivate_moves_record_and_second_call_fails activeW "off1" 0 "alice"
    {0} recordW rfl rfl rfl (by decide)

/-- A state with a pending ticket `7` (matching the witness password). -/
def pendW7 : State := { initW with pending := some 7 }

/-- Witness for C4: successful registration on `pendW7`, and a
non-registration operation (here `SetViewingKey`) creating no record. -/
theorem register_creates_record_and_is_only_creator_witness :
    (∃ s', try_register_offspring pendW7 "off1" "alice" ⟨0, "L", 7⟩ =
        .ok (s', .registered "off1") ∧
      s'.pending = none ∧
      s'.active_info 0 =
        some ((⟨0, "L", 7⟩ : RegisterOffspringInfo).to_store_offspring_info
          "off1") ∧
      s'.active = some (insert 0 (∅ : Finset Nat)) ∧
      0 ∈ (s'.owners_active "alice").getD ∅) ∧
    activeW.active_info 0 = some recordW :=
  ⟨register_creates_record_and_is_only_creator.1 pendW7 "off1" "alice"
      ⟨0, "L", 7⟩ ∅ rfl rfl,
   register_creates_record_and_is_only_creator.2 cryptoW activeW
      (.set_viewing_key "anyone" "k") rfl 0 recordW (by decide)⟩

/-- A state with a stored viewing-key hash for `alice`. -/
def keyedW : State :=
  { initW with view_keys := fun a => if a = "alice" then some 99 else none }

/-- Witness for C5: no stored key, and a stored key whose hash mismatches,
both answer `false` at the cost of exactly one hash-and-compare. -/
theorem viewing_key_false_and_uniform_compare_cost_witness :
    (is_key_valid cryptoW initW "alice" "k" = false ∧
     is_key_valid_checks cryptoW initW "alice" "k" = 1) ∧
    (is_key_valid cryptoW keyedW "alice" "k" = false ∧
     is_key_valid_checks cryptoW keyedW "alice" "k" = 1) :=
  ⟨viewing_key_false_and_uniform_compare_cost.1 cryptoW initW "alice" "k" rfl,
   viewing_key_false_and_uniform_compare_cost.2 cryptoW keyedW "alice" "k" 99
     (by decide) (by decide)⟩

/-- Witness for C7 (amended), instantiating each branch: viewing-key
failures (no key on `initW`, wrong key on `keyedW`) give the one generic
answer, registration failures give their two distinct messages, and the two
deactivation failure causes give their two distinct soft responses. -/
theorem auth_failure_messages_amended_witness :
    try_list_my cryptoW initW "alice" "k" none = .viewing_key_error
      "Wrong viewing key for this address or viewing key not set" ∧
    try_list_my cryptoW keyedW "alice" "k" none = .viewing_key_error
      "Wrong viewing key for this address or viewing key not set" ∧
    try_register_offspring initW "off1" "alice" ⟨0, "L", 7⟩ =
      .error "Unable to authenticate registration." ∧
    try_register_offspring pendW "off1" "alice" ⟨0, "L", 7⟩ =
      .error "password does not match the offspring we are creating" ∧
    try_deactivate_offspring initW "off1" 0 "alice" =
      .ok (initW, .deactivate_soft_error .missing_offspring_info) ∧
    try_deactivate_offspring activeW "mallory" 0 "alice" =
      .ok (activeW, .deactivate_soft_error .unauthorized) :=
  ⟨auth_failure_messages_amended.1 cryptoW initW "alice" "k" none rfl,
   auth_failure_messages_amended.2.1 cryptoW keyedW "alice" "k" none 99
     (by decide) (by decide),
   auth_failure_messages_amended.2.2.1 initW "off1" "alice" ⟨0, "L", 7⟩ rfl,
   auth_failure_messages_amended.2.2.2.1 pendW "off1" "alice" ⟨0, "L", 7⟩ 5
     rfl (by decide),
   auth_failure_messages_amended.2.2.2.2.1 initW "off1" 0 "alice" ∅ rfl rfl,
   auth_failure_messages_amended.2.2.2.2.2.1 activeW "mallory" 0 "alice" {0}
     recordW rfl (by decide) (by decide)⟩

/-- A state with a pending ticket `7` and an existing active record at
index 0. -/
def pendActiveW : State :=
  { initW with pending := some 7
               active := some {0}
               active_info := fun j =>
                 if j = 0 then some ⟨"old", "O", 5⟩ else none }

/-- Witness for C8: registering with index 0 (already keyed by the `old`
record) silently overwrites it. -/
theorem register_supplied_index_overwrites_witness :
    ∃ s', try_register_offspring pendActiveW "off1" "alice" ⟨0, "L", 7⟩ =
        .ok (s', .registered "off1") ∧
      s'.active_info 0 =
        some ((⟨0, "L", 7⟩ : RegisterOffspringInfo).to_store_offspring_info
          "off1") ∧
      0 ∈ s'.active.getD ∅ ∧
      0 ∈ (s'.owners_active "alice").getD ∅ :=
  register_supplied_index_overwrites pendActiveW "off1" "alice" ⟨0, "L", 7⟩
    {0} ⟨"old", "O", 5⟩ rfl rfl rfl

/-- Witness for C9: create for `alice`, register naming `bob`. -/
theorem register_owner_from_message_not_from_create_witness :
    ∃ s1 initmsg s2,
      try_create_offspring cryptoW initW "L" 5 "alice" 0 none =
        .ok (s1, .created "L" initmsg) ∧
      initmsg.owner = "alice" ∧
      try_register_offspring s1 "off1" "bob" ⟨0, "l2", initmsg.password⟩ =
        .ok (s2, .registered "off1") ∧
      0 ∈ (s2.owners_active "bob").getD ∅ ∧
      0 ∉ (s2.owners_active "alice").getD ∅ :=
  register_owner_from_message_not_from_create cryptoW initW "L" "l2" 5
    "alice" "bob" "off1" 0 none 0 ∅ rfl rfl (by decide) (by decide)

/-- A state with a one-entry inactive log. -/
def logW : State :=
  { initW with inactive_log := [recordW.to_store_inactive_offspring_info] }

/-- Witness for C10: `before = 5` on a log of length 1 behaves as
`before = none`, and the returned page respects the page size. -/
theorem list_inactive_before_clamped_and_total_witness :
    try_list_inactive logW (some 5) (some 3) =
      try_list_inactive logW none (some 3) ∧
    (∃ o, try_list_inactive logW (some 5) (some 3) =
        .list_inactive_offspring o ∧
      ∀ l, o = some l → l.length ≤ (some 3 : Option Nat).getD 200) :=
  ⟨list_inactive_before_clamped_and_total.1 logW 5 (some 3) (by decide),
   list_inactive_before_clamped_and_total.2 logW (some 5) (some 3)⟩

end Factory
